import Mathlib

/-!
Verification of the analytical core of the tf2-bot-kicker-gui repository:
Steam identity conversion, the persisted player-record store
(`player_checker.rs`), party detection (`server/parties.rs`) and the
enrichment worker (`steamapi.rs`), embedded shallowly in Lean.
-/

set_option maxRecDepth 4000

namespace BotKicker

/-! ## Characters and digit strings -/

def isDigitChar (c : Char) : Bool :=
  48 ≤ c.toNat && c.toNat ≤ 57

def digitVal (c : Char) : Nat :=
  c.toNat - 48

def digitChar : Nat → Char
  | 0 => '0'
  | 1 => '1'
  | 2 => '2'
  | 3 => '3'
  | 4 => '4'
  | 5 => '5'
  | 6 => '6'
  | 7 => '7'
  | 8 => '8'
  | _ => '9'

/-- Value of a digit string, most significant digit first. -/
def digitsToNat (l : List Char) : Nat :=
  l.foldl (fun a c => 10 * a + digitVal c) 0

/-- Decimal digits of a natural number (fuel-driven so the kernel can
evaluate it). -/
def natToDigitsAux : Nat → Nat → List Char
  | 0, _ => []
  | fuel + 1, n =>
    if n < 10 then [digitChar n]
    else natToDigitsAux fuel (n / 10) ++ [digitChar (n % 10)]

def natToDigits (n : Nat) : List Char :=
  natToDigitsAux (n + 1) n

theorem digitVal_digitChar {n : Nat} (h : n < 10) : digitVal (digitChar n) = n := by
  interval_cases n <;> rfl

theorem isDigitChar_digitChar {n : Nat} (h : n < 10) : isDigitChar (digitChar n) = true := by
  interval_cases n <;> rfl

theorem digitsToNat_append_singleton (l : List Char) (c : Char) :
    digitsToNat (l ++ [c]) = 10 * digitsToNat l + digitVal c := by
  simp [digitsToNat, List.foldl_append]

theorem digitsToNat_natToDigitsAux {fuel n : Nat} (h : n < fuel) :
    digitsToNat (natToDigitsAux fuel n) = n := by
  induction fuel generalizing n with
  | zero => omega
  | succ fuel ih =>
    by_cases hn : n < 10
    · simp [natToDigitsAux, hn, digitsToNat, digitVal_digitChar hn]
    · have hd : n / 10 < fuel := by omega
      simp only [natToDigitsAux, if_neg hn]
      rw [digitsToNat_append_singleton, ih hd, digitVal_digitChar (by omega)]
      omega

theorem digitsToNat_natToDigits (n : Nat) : digitsToNat (natToDigits n) = n :=
  digitsToNat_natToDigitsAux (Nat.lt_succ_self n)

theorem natToDigitsAux_ne_nil {fuel n : Nat} (h : n < fuel) :
    natToDigitsAux fuel n ≠ [] := by
  cases fuel with
  | zero => omega
  | succ fuel =>
    by_cases hn : n < 10 <;> simp [natToDigitsAux, hn]

theorem natToDigits_ne_nil (n : Nat) : natToDigits n ≠ [] :=
  natToDigitsAux_ne_nil (Nat.lt_succ_self n)

theorem all_isDigitChar_natToDigitsAux {fuel n : Nat} (h : n < fuel) :
    (natToDigitsAux fuel n).all isDigitChar = true := by
  induction fuel generalizing n with
  | zero => omega
  | succ fuel ih =>
    by_cases hn : n < 10
    · simp [natToDigitsAux, hn, isDigitChar_digitChar hn]
    · have hd : n / 10 < fuel := by omega
      simp only [natToDigitsAux, if_neg hn, List.all_append]
      simp [ih hd, isDigitChar_digitChar (show n % 10 < 10 by omega)]

theorem all_isDigitChar_natToDigits (n : Nat) :
    (natToDigits n).all isDigitChar = true :=
  all_isDigitChar_natToDigitsAux (Nat.lt_succ_self n)

/-! ## SteamIdCodec

The repository calls `steamid_32_to_64` / `steamid_64_to_32` from a
`player` module that is not part of the provided sources (only its callers
are). The two functions are therefore modelled from the spec. -/

/-- Error value returned by the identity codec on malformed input. -/
structure FormatError where
  msg : String
deriving DecidableEq, Repr

/-- The fixed additive offset between the two Steam identity encodings. -/
def steamOffset : Nat := 76561197960265728

/-- Strips one leading opening bracket, if present. -/
def stripOpenBracket (l : List Char) : List Char :=
  if l.head? = some '[' then l.tail else l

/-- Strips one trailing closing bracket, if present. -/
def stripCloseBracket (l : List Char) : List Char :=
  if l.getLast? = some ']' then l.dropLast else l

/-- Does the character list match `U:<digit>:<digits>` (nonempty digit run)? -/
def matchesId32Core (l : List Char) : Bool :=
  match l with
  | a :: b :: u :: d :: rest =>
    decide (a = 'U') && decide (b = ':') && decide (d = ':') &&
      isDigitChar u && decide (rest ≠ []) && rest.all isDigitChar
  | _ => false

/-- Textual SteamId32 pattern: `U:<digit>:<digits>` with optional brackets. -/
def matchesId32 (s : String) : Bool :=
  matchesId32Core (stripCloseBracket (stripOpenBracket s.data))

/-- Textual SteamId64 pattern: a nonempty string of decimal digits. -/
def matchesId64 (s : String) : Bool :=
  (decide (s.data ≠ [])) && s.data.all isDigitChar

/-- Modelled from the spec: `steamid_32_to_64` (from the repository's absent
`player` module) strips an optional bracket, parses the trailing account
number of a `U:<universe>:<digits>` string and adds the fixed Steam offset;
it fails with a `FormatError` on any other shape. -/
def steamid_32_to_64 (s : String) : Except FormatError String :=
  let core := stripCloseBracket (stripOpenBracket s.data)
  match core with
  | a :: b :: u :: d :: rest =>
    if decide (a = 'U') && decide (b = ':') && decide (d = ':') &&
        isDigitChar u && decide (rest ≠ []) && rest.all isDigitChar then
      .ok (String.mk (natToDigits (digitsToNat rest + steamOffset)))
    else .error ⟨"invalid SteamID32"⟩
  | _ => .error ⟨"invalid SteamID32"⟩

/-- Modelled from the spec: `steamid_64_to_32` (from the repository's absent
`player` module) parses the decimal value of a SteamId64 string, subtracts
the fixed Steam offset and renders `U:1:<account>`; it fails with a
`FormatError` if the string is not a digit string or the value does not
decode to a non-negative account number. -/
def steamid_64_to_32 (s : String) : Except FormatError String :=
  if (decide (s.data ≠ [])) && s.data.all isDigitChar then
    let n := digitsToNat s.data
    if steamOffset ≤ n then
      .ok (String.mk ('U' :: ':' :: '1' :: ':' :: natToDigits (n - steamOffset)))
    else .error ⟨"invalid SteamID64"⟩
  else .error ⟨"invalid SteamID64"⟩

/-- The canonical SteamId32 rendering of an account number. -/
def mkId32 (n : Nat) : String :=
  String.mk ('U' :: ':' :: '1' :: ':' :: natToDigits n)

/-- The canonical SteamId64 rendering of a 64-bit identity value. -/
def mkId64 (n : Nat) : String :=
  String.mk (natToDigits n)

/-- A well-formed SteamId32 string: `U:1:<account>` in canonical form. -/
def WellFormed32 (s : String) : Prop :=
  ∃ n : Nat, s = mkId32 n

/-- A well-formed SteamId64 string: the canonical decimal form of a value
that decodes to a non-negative account number. -/
def WellFormed64 (s : String) : Prop :=
  ∃ n : Nat, steamOffset ≤ n ∧ s = mkId64 n

def isErr {ε α : Type} (e : Except ε α) : Bool :=
  match e with
  | .error _ => true
  | .ok _ => false

theorem getLast?_ne_bracket {l : List Char} (hall : l.all isDigitChar = true) :
    l.getLast? ≠ some ']' := by
  intro h
  have hm : ']' ∈ l.getLast? := by rw [h]; rfl
  obtain ⟨hne, hx⟩ := List.mem_getLast?_eq_getLast hm
  have hmem : ']' ∈ l := hx ▸ List.getLast_mem hne
  have := List.all_eq_true.mp hall _ hmem
  simp [isDigitChar] at this

theorem getLast?_cons_four (a b c d : Char) {l : List Char} (h : l ≠ []) :
    (a :: b :: c :: d :: l).getLast? = l.getLast? := by
  obtain ⟨x, t, rfl⟩ := List.exists_cons_of_ne_nil h
  simp [List.getLast?_cons_cons]

theorem steamid_32_to_64_mkId32 (n : Nat) :
    steamid_32_to_64 (mkId32 n) = .ok (mkId64 (n + steamOffset)) := by
  have hne := natToDigits_ne_nil n
  have hall := all_isDigitChar_natToDigits n
  have hlast : ('U' :: ':' :: '1' :: ':' :: natToDigits n).getLast? ≠ some ']' := by
    rw [getLast?_cons_four _ _ _ _ hne]
    exact getLast?_ne_bracket hall
  have hhead : ('U' :: ':' :: '1' :: ':' :: natToDigits n).head? ≠ some '[' := by
    simp
  simp only [steamid_32_to_64, mkId32, mkId64, stripOpenBracket, stripCloseBracket,
    String.data]
  rw [if_neg hhead, if_neg hlast]
  simp [digitsToNat_natToDigits, hne, hall]
  decide

theorem steamid_64_to_32_mkId64 {n : Nat} (h : steamOffset ≤ n) :
    steamid_64_to_32 (mkId64 n) = .ok (mkId32 (n - steamOffset)) := by
  have hne := natToDigits_ne_nil n
  have hall := all_isDigitChar_natToDigits n
  simp [steamid_64_to_32, mkId64, mkId32, digitsToNat_natToDigits, hne, hall, h]

theorem steamid_32_to_64_err {s : String} (h : matchesId32 s = false) :
    isErr (steamid_32_to_64 s) = true := by
  unfold matchesId32 at h
  unfold steamid_32_to_64
  cases hc : stripCloseBracket (stripOpenBracket s.data) with
  | nil => rfl
  | cons a t =>
    cases t with
    | nil => rfl
    | cons b t =>
      cases t with
      | nil => rfl
      | cons u t =>
        cases t with
        | nil => rfl
        | cons d rest =>
          rw [hc] at h
          simp only [matchesId32Core] at h
          simp only [h, Bool.false_eq_true, if_false]
          rfl

theorem steamid_64_to_32_err {s : String} (h : matchesId64 s = false) :
    isErr (steamid_64_to_32 s) = true := by
  unfold matchesId64 at h
  unfold steamid_64_to_32
  simp only [h, Bool.false_eq_true, if_false]
  rfl

/-- Claim C1: for every well-formed SteamId32 string, converting to a
SteamId64 (adding the fixed offset 76561197960265728) and back yields the
original string; symmetrically for every well-formed SteamId64 string; and
a string matching neither expected pattern is rejected with a FormatError
by both conversions. -/
theorem steamid_codec_roundtrip (s : String) :
    (WellFormed32 s →
      ∃ t, steamid_32_to_64 s = .ok t ∧ steamid_64_to_32 t = .ok s) ∧
    (WellFormed64 s →
      ∃ t, steamid_64_to_32 s = .ok t ∧ steamid_32_to_64 t = .ok s) ∧
    (matchesId32 s = false ∧ matchesId64 s = false →
      isErr (steamid_32_to_64 s) = true ∧ isErr (steamid_64_to_32 s) = true) := by
  refine ⟨?_, ?_, ?_⟩
  · rintro ⟨n, rfl⟩
    refine ⟨mkId64 (n + steamOffset), steamid_32_to_64_mkId32 n, ?_⟩
    rw [steamid_64_to_32_mkId64 (Nat.le_add_left _ _), Nat.add_sub_cancel]
  · rintro ⟨n, hn, rfl⟩
    refine ⟨mkId32 (n - steamOffset), steamid_64_to_32_mkId64 hn, ?_⟩
    rw [steamid_32_to_64_mkId32, Nat.sub_add_cancel hn]
  · rintro ⟨h32, h64⟩
    exact ⟨steamid_32_to_64_err h32, steamid_64_to_32_err h64⟩

/-- Witness for C1: concrete round trips at `U:1:5` and `76561197960265730`,
and rejection of `hello`. -/
theorem steamid_codec_roundtrip_witness :
    (∃ t, steamid_32_to_64 "U:1:5" = .ok t ∧ steamid_64_to_32 t = .ok "U:1:5") ∧
    (∃ t, steamid_64_to_32 "76561197960265730" = .ok t ∧
      steamid_32_to_64 t = .ok "76561197960265730") ∧
    (isErr (steamid_32_to_64 "hello") = true ∧ isErr (steamid_64_to_32 "hello") = true) :=
  ⟨(steamid_codec_roundtrip "U:1:5").1 ⟨5, by decide⟩,
    (steamid_codec_roundtrip "76561197960265730").2.1
      ⟨76561197960265730, by decide, by decide⟩,
    (steamid_codec_roundtrip "hello").2.2 ⟨by decide, by decide⟩⟩

/-! ## RecordStore (`player_checker.rs`)

`HashMap<String, PlayerRecord>` is embedded as an association list
(`List (String × PlayerRecord)`) with the usual insert / remove / get
operations; insertion overwrites in place, removal drops the entry. -/

inductive PlayerType
  | Player
  | Bot
  | Cheater
  | Suspicious
deriving DecidableEq, Repr

/-- The string Rust's `{:?}` debug formatting produces for a `PlayerType`. -/
def PlayerType.debugStr : PlayerType → String
  | .Player => "Player"
  | .Bot => "Bot"
  | .Cheater => "Cheater"
  | .Suspicious => "Suspicious"

structure PlayerRecord where
  steamid : String
  player_type : PlayerType
  notes : String
deriving DecidableEq, Repr

def mapGet? {α : Type} (m : List (String × α)) (k : String) : Option α :=
  (m.find? (fun e => e.1 = k)).map (fun e => e.2)

def mapContains {α : Type} (m : List (String × α)) (k : String) : Bool :=
  m.any (fun e => e.1 = k)

def mapInsert {α : Type} (m : List (String × α)) (k : String) (v : α) :
    List (String × α) :=
  match m with
  | [] => [(k, v)]
  | e :: t => if e.1 = k then (k, v) :: t else e :: mapInsert t k v

def mapErase {α : Type} (m : List (String × α)) (k : String) : List (String × α) :=
  m.filter (fun e => decide (e.1 ≠ k))

structure PlayerChecker where
  bots_regx : List String
  players : List (String × PlayerRecord)
  external_players : List (String × PlayerRecord)
deriving DecidableEq, Repr

/-- `PlayerChecker::update_player_record`: a record of type Player with
empty notes removes the stored entry for that identity, anything else is
inserted / overwritten in the internal store. -/
def update_player_record (pc : PlayerChecker) (r : PlayerRecord) : PlayerChecker :=
  if r.player_type = .Player ∧ r.notes = "" then
    { pc with players := mapErase pc.players r.steamid }
  else
    { pc with players := mapInsert pc.players r.steamid r }

/-- `PlayerChecker::check_player_steamid`: internal store first, external
store second. -/
def check_player_steamid (pc : PlayerChecker) (steamid : String) : Option PlayerRecord :=
  match mapGet? pc.players steamid with
  | some r => some r
  | none => mapGet? pc.external_players steamid

def parsePlayerType (s : String) : Option PlayerType :=
  if s = "Player" then some .Player
  else if s = "Bot" then some .Bot
  else if s = "Cheater" then some .Cheater
  else if s = "Suspicious" then some .Suspicious
  else none

/-- `PlayerChecker::read_players`, applied to the already-deserialized JSON
array: each entry is the `(steamid, player_type, notes)` string triple read
with `unwrap_or("")`. Entries with an empty steamid or an unrecognized
player type string are skipped; the rest are inserted verbatim. -/
def read_players (pc : PlayerChecker) (entries : List (String × String × String)) :
    PlayerChecker :=
  entries.foldl
    (fun pc e =>
      if e.1 = "" then pc
      else
        match parsePlayerType e.2.1 with
        | none => pc
        | some pt =>
          { pc with players := mapInsert pc.players e.1 ⟨e.1, pt, e.2.2⟩ })
    pc

/-! ### Scanning unstructured text for Steam identities

`read_from_steamid_list_string` scans with the regexes
`\[?(?P<uuid>U:\d:\d+)\]?` and `7656\d{13}` via `find_iter` (leftmost,
non-overlapping matches). The two patterns are embedded as direct
character-list matchers with identical match semantics. -/

/-- Tries to match `U:\d:\d+` at the head of the list; on success returns
the captured characters and the length consumed. -/
def matchCore32 (l : List Char) : Option (List Char × Nat) :=
  match l with
  | a :: b :: u :: d :: rest =>
    if decide (a = 'U') && decide (b = ':') && isDigitChar u && decide (d = ':') then
      let run := rest.takeWhile isDigitChar
      if run.isEmpty then none
      else some (a :: b :: u :: d :: run, 4 + run.length)
    else none
  | _ => none

/-- Tries to match `\[?(U:\d:\d+)\]?` at the head of the list; returns the
`uuid` capture and the total length consumed. -/
def matchAt32 (l : List Char) : Option (List Char × Nat) :=
  let br := l.head? = some '['
  let body := if br then l.tail else l
  match matchCore32 body with
  | none => none
  | some (cap, len) =>
    let len := if br then len + 1 else len
    if (l.drop len).head? = some ']' then some (cap, len + 1) else some (cap, len)

/-- Tries to match `7656\d{13}` at the head of the list. -/
def matchAt64 (l : List Char) : Option (List Char × Nat) :=
  match l with
  | a :: b :: c :: d :: rest =>
    if decide (a = '7') && decide (b = '6') && decide (c = '5') && decide (d = '6') then
      let run := rest.take 13
      if (decide (run.length = 13)) && run.all isDigitChar then
        some (a :: b :: c :: d :: run, 17)
      else none
    else none
  | _ => none

/-- Leftmost, non-overlapping scan (the semantics of `find_iter`): try the
matcher at each position, emit the capture and jump over a match, advance
one character otherwise. -/
def scanAux (matchAt : List Char → Option (List Char × Nat)) :
    Nat → List Char → List (List Char)
  | 0, _ => []
  | fuel + 1, l =>
    if l.isEmpty then []
    else
      match matchAt l with
      | some (cap, len) => cap :: scanAux matchAt fuel (l.drop len)
      | none => scanAux matchAt fuel l.tail

def scan32 (s : String) : List String :=
  (scanAux matchAt32 s.data.length s.data).map String.mk

def scan64 (s : String) : List String :=
  (scanAux matchAt64 s.data.length s.data).map String.mk

/-- The provenance note `format!("Imported from {} as {:?}", filename, t)`. -/
def importNote (filename : String) (t : PlayerType) : String :=
  "Imported from " ++ filename ++ " as " ++ t.debugStr

/-- One step of the import loops: skip identities already present in the
target store, insert a fresh record otherwise. -/
def importStep (t : PlayerType) (filename : String)
    (pl : List (String × PlayerRecord)) (steamid : String) :
    List (String × PlayerRecord) :=
  if mapContains pl steamid then pl
  else mapInsert pl steamid ⟨steamid, t, importNote filename t⟩

/-- One step of the SteamId64 import loop: conversion failures are skipped
silently, successes go through `importStep`. -/
def importStep64 (t : PlayerType) (filename : String)
    (pl : List (String × PlayerRecord)) (s64 : String) :
    List (String × PlayerRecord) :=
  match steamid_64_to_32 s64 with
  | .error _ => pl
  | .ok id => importStep t filename pl id

/-- `PlayerChecker::read_from_steamid_list_string`: scan for SteamId32 and
SteamId64 shaped substrings, convert the latter (silently skipping failed
conversions), and insert a record for every identity not already present
in the target store. -/
def read_from_steamid_list_string (pc : PlayerChecker) (contents : String)
    (as_player_type : PlayerType) (filename : String) (saved : Bool) :
    PlayerChecker :=
  let pl := if saved then pc.players else pc.external_players
  let pl := (scan32 contents).foldl (importStep as_player_type filename) pl
  let pl := (scan64 contents).foldl (importStep64 as_player_type filename) pl
  if saved then { pc with players := pl } else { pc with external_players := pl }

/-! ### Pattern-file import

Compilation of a regular expression happens in the external `regex` crate;
it is abstracted as a validity oracle `valid : String → Bool` (the crate is
deterministic in the pattern text). -/

def isWsChar (c : Char) : Bool :=
  decide (c = ' ') || decide (c = '\t') || decide (c = '\r') || decide (c = '\n')

def trimChars (l : List Char) : List Char :=
  ((l.dropWhile isWsChar).reverse.dropWhile isWsChar).reverse

def trimStr (s : String) : String :=
  String.mk (trimChars s.data)

def splitOnChar (sep : Char) : List Char → List (List Char)
  | [] => [[]]
  | ch :: t =>
    match splitOnChar sep t with
    | [] => if decide (ch = sep) then [[], []] else [[ch]]
    | h :: r => if decide (ch = sep) then [] :: h :: r else (ch :: h) :: r

def splitLines (s : String) : List String :=
  (splitOnChar '\n' s.data).map String.mk

/-- `PlayerChecker::read_regex_list` applied to the file contents: each
non-empty trimmed line is compiled (`valid` abstracts the regex crate);
failures are logged and skipped, successes are appended to `bots_regx`.
Returns the updated checker and the number of failure reports. -/
def read_regex_list (valid : String → Bool) (pc : PlayerChecker) (contents : String) :
    PlayerChecker × Nat :=
  let r := (splitLines contents).foldl
    (fun acc line =>
      let txt := trimStr line
      if txt = "" then acc
      else if valid txt then (acc.1 ++ [txt], acc.2) else (acc.1, acc.2 + 1))
    ([], 0)
  ({ pc with bots_regx := pc.bots_regx ++ r.1 }, r.2)

/-! ## Association-list map lemmas -/

theorem mapGet?_mapInsert_self {α : Type} (m : List (String × α)) (k : String) (v : α) :
    mapGet? (mapInsert m k v) k = some v := by
  induction m with
  | nil => simp [mapInsert, mapGet?, List.find?]
  | cons e t ih =>
    by_cases h : e.1 = k
    · simp [mapInsert, h, mapGet?, List.find?]
    · simp only [mapInsert, if_neg h]
      simp only [mapGet?, List.find?] at ih ⊢
      simp [h, ih]

theorem mapGet?_mapInsert_ne {α : Type} (m : List (String × α)) {k k' : String}
    (v : α) (h : k' ≠ k) : mapGet? (mapInsert m k v) k' = mapGet? m k' := by
  induction m with
  | nil => simp [mapInsert, mapGet?, List.find?, Ne.symm h]
  | cons e t ih =>
    by_cases he : e.1 = k
    · simp only [mapInsert, if_pos he]
      simp only [mapGet?, List.find?]
      rw [he]
      simp [Ne.symm h]
    · simp only [mapInsert, if_neg he]
      simp only [mapGet?, List.find?] at ih ⊢
      by_cases he' : e.1 = k'
      · simp [he']
      · simp [he', ih]

theorem mapGet?_mapErase_self {α : Type} (m : List (String × α)) (k : String) :
    mapGet? (mapErase m k) k = none := by
  induction m with
  | nil => rfl
  | cons e t ih =>
    by_cases h : e.1 = k
    · simpa [mapErase, List.filter_cons, h] using ih
    · simp only [mapErase, List.filter_cons] at ih ⊢
      simp only [mapGet?, List.find?] at ih ⊢
      simp [h, ih]

theorem mem_mapInsert {α : Type} {m : List (String × α)} {k : String} {v : α}
    {e : String × α} (h : e ∈ mapInsert m k v) : e = (k, v) ∨ e ∈ m := by
  induction m with
  | nil => simpa [mapInsert] using h
  | cons f t ih =>
    by_cases hf : f.1 = k
    · simp only [mapInsert, if_pos hf, List.mem_cons] at h
      rcases h with h | h
      · exact Or.inl h
      · exact Or.inr (List.mem_cons_of_mem _ h)
    · simp only [mapInsert, if_neg hf, List.mem_cons] at h
      rcases h with h | h
      · exact Or.inr (h ▸ List.mem_cons_self _ _)
      · rcases ih h with h | h
        · exact Or.inl h
        · exact Or.inr (List.mem_cons_of_mem _ h)

theorem mem_mapErase {α : Type} {m : List (String × α)} {k : String}
    {e : String × α} (h : e ∈ mapErase m k) : e ∈ m :=
  List.mem_of_mem_filter h

theorem mapContains_true_iff {α : Type} (m : List (String × α)) (k : String) :
    mapContains m k = true ↔ ∃ v, (k, v) ∈ m := by
  simp only [mapContains, List.any_eq_true, decide_eq_true_eq]
  constructor
  · rintro ⟨e, hm, he⟩
    exact ⟨e.2, by rwa [← he, Prod.mk.eta]⟩
  · rintro ⟨v, hm⟩
    exact ⟨(k, v), hm, rfl⟩

theorem mapContains_mapInsert_eq {α : Type} (m : List (String × α)) (k k' : String)
    (v : α) :
    mapContains (mapInsert m k v) k' = (mapContains m k' || decide (k = k')) := by
  induction m with
  | nil => simp [mapContains, mapInsert]
  | cons e t ih =>
    by_cases hf : e.1 = k
    · simp only [mapInsert, if_pos hf, mapContains, List.any_cons, hf]
      cases h1 : decide (k = k') <;> simp [h1]
    · simp only [mapInsert, if_neg hf, mapContains, List.any_cons] at ih ⊢
      rw [ih]
      cases h1 : decide (e.1 = k') <;> simp [h1, Bool.or_assoc]

theorem mapContains_mapInsert {α : Type} (m : List (String × α)) (k k' : String)
    (v : α) (h : mapContains m k' = true) :
    mapContains (mapInsert m k v) k' = true := by
  rw [mapContains_mapInsert_eq]
  simp [h]

theorem mapContains_mapInsert_self {α : Type} (m : List (String × α)) (k : String)
    (v : α) : mapContains (mapInsert m k v) k = true := by
  rw [mapContains_mapInsert_eq]
  simp

/-! ## The empty-default invariant (claims C2 and C3) -/

/-- No stored record has kind Player with empty notes. -/
def StoreInv (m : List (String × PlayerRecord)) : Prop :=
  ∀ e ∈ m, ¬(e.2.player_type = PlayerType.Player ∧ e.2.notes = "")

instance (m : List (String × PlayerRecord)) : Decidable (StoreInv m) := by
  unfold StoreInv
  infer_instance

theorem storeInv_update_player_record {pc : PlayerChecker} (r : PlayerRecord)
    (h : StoreInv pc.players) : StoreInv (update_player_record pc r).players := by
  unfold update_player_record
  by_cases hr : r.player_type = .Player ∧ r.notes = ""
  · simp only [if_pos hr]
    exact fun e he => h e (mem_mapErase he)
  · simp only [if_neg hr]
    intro e he
    rcases mem_mapInsert he with he | he
    · rw [he]
      exact hr
    · exact h e he

theorem importNote_ne_empty (filename : String) (t : PlayerType) :
    importNote filename t ≠ "" := by
  intro h
  have hd : (importNote filename t).data = [] := by rw [h]
  simp [importNote, String.data_append] at hd

theorem storeInv_importStep {m : List (String × PlayerRecord)} (t : PlayerType)
    (filename s : String) (h : StoreInv m) : StoreInv (importStep t filename m s) := by
  unfold importStep
  by_cases hc : mapContains m s = true
  · simpa [hc] using h
  · simp only [hc, Bool.false_eq_true, if_false]
    intro e he
    rcases mem_mapInsert he with he | he
    · rw [he]
      rintro ⟨-, hn⟩
      exact importNote_ne_empty filename t hn
    · exact h e he

theorem storeInv_foldl_importStep {t : PlayerType} {filename : String}
    (L : List String) {m : List (String × PlayerRecord)} (h : StoreInv m) :
    StoreInv (L.foldl (importStep t filename) m) := by
  induction L generalizing m with
  | nil => exact h
  | cons x L ih => exact ih (storeInv_importStep _ _ _ h)

theorem storeInv_importStep64 {m : List (String × PlayerRecord)} (t : PlayerType)
    (filename s64 : String) (h : StoreInv m) : StoreInv (importStep64 t filename m s64) := by
  unfold importStep64
  cases steamid_64_to_32 s64 with
  | error e => exact h
  | ok id => exact storeInv_importStep _ _ _ h

theorem storeInv_foldl_import64 {t : PlayerType} {filename : String}
    (L : List String) {m : List (String × PlayerRecord)} (h : StoreInv m) :
    StoreInv (L.foldl (importStep64 t filename) m) := by
  induction L generalizing m with
  | nil => exact h
  | cons x L ih => exact ih (storeInv_importStep64 _ _ _ h)

theorem storeInv_import {pc : PlayerChecker} {contents : String} {t : PlayerType}
    {filename : String} {saved : Bool}
    (h : StoreInv pc.players) (h' : StoreInv pc.external_players) :
    StoreInv (read_from_steamid_list_string pc contents t filename saved).players ∧
    StoreInv (read_from_steamid_list_string pc contents t filename saved).external_players := by
  unfold read_from_steamid_list_string
  cases saved with
  | true =>
    simp only [if_pos rfl]
    exact ⟨storeInv_foldl_import64 _ (storeInv_foldl_importStep _ h), h'⟩
  | false =>
    simp only [Bool.false_eq_true, if_false]
    exact ⟨h, storeInv_foldl_import64 _ (storeInv_foldl_importStep _ h')⟩

/-- Claim C2 (amended): `update_player_record` removes the stored entry when
the record is kind Player with empty notes (a lookup of that identity in the
internal store then finds nothing), inserts/overwrites otherwise, never
touches the external store, and preserves the invariant that no stored
internal record has kind Player with empty notes. -/
theorem update_player_record_contract (pc : PlayerChecker) (r : PlayerRecord) :
    (r.player_type = .Player ∧ r.notes = "" →
      mapGet? (update_player_record pc r).players r.steamid = none) ∧
    (¬(r.player_type = .Player ∧ r.notes = "") →
      mapGet? (update_player_record pc r).players r.steamid = some r) ∧
    (update_player_record pc r).external_players = pc.external_players ∧
    (StoreInv pc.players → StoreInv (update_player_record pc r).players) := by
  refine ⟨?_, ?_, ?_, storeInv_update_player_record r⟩
  · intro hr
    simp only [update_player_record, if_pos hr]
    exact mapGet?_mapErase_self _ _
  · intro hr
    simp only [update_player_record, if_neg hr]
    exact mapGet?_mapInsert_self _ _ _
  · unfold update_player_record
    by_cases hr : r.player_type = .Player ∧ r.notes = "" <;> simp [hr]

/-- Counterexample to C2 as stated: over an arbitrary prior store state the
final conjunct fails — upserting an unrelated record does not purge a
pre-existing Player/empty-notes entry stored under a different identity. -/
theorem update_player_record_stale_entry :
    ¬ StoreInv (update_player_record
        ⟨[], [("U:1:9", ⟨"U:1:9", .Player, ""⟩)], []⟩
        ⟨"U:1:7", .Bot, "bot"⟩).players := by
  decide

/-- Witness for C2 (amended), at concrete inputs. -/
theorem update_player_record_contract_witness :
    mapGet? (update_player_record ⟨[], [("U:1:5", ⟨"U:1:5", .Bot, "b"⟩)], []⟩
      ⟨"U:1:5", .Player, ""⟩).players "U:1:5" = none ∧
    mapGet? (update_player_record ⟨[], [], []⟩ ⟨"U:1:6", .Cheater, "c"⟩).players
      "U:1:6" = some ⟨"U:1:6", .Cheater, "c"⟩ ∧
    StoreInv (update_player_record ⟨[], [], []⟩ ⟨"U:1:6", .Cheater, "c"⟩).players :=
  ⟨(update_player_record_contract ⟨[], [("U:1:5", ⟨"U:1:5", .Bot, "b"⟩)], []⟩
      ⟨"U:1:5", .Player, ""⟩).1 (by decide),
    (update_player_record_contract ⟨[], [], []⟩ ⟨"U:1:6", .Cheater, "c"⟩).2.1
      (by decide),
    (update_player_record_contract ⟨[], [], []⟩ ⟨"U:1:6", .Cheater, "c"⟩).2.2.2
      (by decide)⟩

/-- Claim C3 (amended): `update_player_record` and steamid-list import both
preserve the absence of Player/empty-notes records (the former deletes,
the latter only inserts records with a nonempty provenance note); the
record-file importer `read_players` does not enforce the invariant. -/
theorem store_operations_invariant (pc : PlayerChecker) (r : PlayerRecord)
    (contents filename : String) (t : PlayerType) (saved : Bool)
    (h : StoreInv pc.players) (h' : StoreInv pc.external_players) :
    StoreInv (update_player_record pc r).players ∧
    StoreInv (read_from_steamid_list_string pc contents t filename saved).players ∧
    StoreInv (read_from_steamid_list_string pc contents t filename saved).external_players :=
  ⟨storeInv_update_player_record r h, (storeInv_import h h').1, (storeInv_import h h').2⟩

/-- Counterexample to C3 as stated: record-file import stores a
Player/empty-notes entry verbatim, so the invariant is violated by a
reachable store state. -/
theorem read_players_breaks_invariant :
    ¬ StoreInv (read_players ⟨[], [], []⟩ [("U:1:5", "Player", "")]).players := by
  decide

/-- Witness for C3 (amended), at concrete inputs. -/
theorem store_operations_invariant_witness :
    StoreInv (update_player_record ⟨[], [], []⟩ ⟨"U:1:7", .Bot, "b"⟩).players ∧
    StoreInv (read_from_steamid_list_string ⟨[], [], []⟩ "U:1:3" .Bot "f" true).players ∧
    StoreInv (read_from_steamid_list_string ⟨[], [], []⟩ "U:1:3" .Bot "f" true).external_players :=
  store_operations_invariant ⟨[], [], []⟩ ⟨"U:1:7", .Bot, "b"⟩ "U:1:3" "f" .Bot true
    (by decide) (by decide)

/-! ## Idempotence of steamid-list import (claims C5, C6) -/

theorem mapContains_importStep {m : List (String × PlayerRecord)} {k : String}
    (t : PlayerType) (filename s : String) (h : mapContains m k = true) :
    mapContains (importStep t filename m s) k = true := by
  unfold importStep
  by_cases hc : mapContains m s = true
  · simpa [hc] using h
  · simp only [hc, Bool.false_eq_true, if_false]
    exact mapContains_mapInsert _ _ _ _ h

theorem mapContains_importStep_self {m : List (String × PlayerRecord)}
    (t : PlayerType) (filename s : String) :
    mapContains (importStep t filename m s) s = true := by
  unfold importStep
  by_cases hc : mapContains m s = true
  · simp [hc]
  · simp only [hc, Bool.false_eq_true, if_false]
    exact mapContains_mapInsert_self _ _ _

theorem mapContains_importStep64 {m : List (String × PlayerRecord)} {k : String}
    (t : PlayerType) (filename s64 : String) (h : mapContains m k = true) :
    mapContains (importStep64 t filename m s64) k = true := by
  unfold importStep64
  cases steamid_64_to_32 s64 with
  | error e => exact h
  | ok id => exact mapContains_importStep _ _ _ h

theorem mapContains_foldl_importStep {t : PlayerType} {filename : String}
    (L : List String) {m : List (String × PlayerRecord)} {k : String}
    (h : mapContains m k = true) :
    mapContains (L.foldl (importStep t filename) m) k = true := by
  induction L generalizing m with
  | nil => exact h
  | cons x L ih => exact ih (mapContains_importStep _ _ _ h)

theorem mapContains_foldl_importStep64 {t : PlayerType} {filename : String}
    (L : List String) {m : List (String × PlayerRecord)} {k : String}
    (h : mapContains m k = true) :
    mapContains (L.foldl (importStep64 t filename) m) k = true := by
  induction L generalizing m with
  | nil => exact h
  | cons x L ih => exact ih (mapContains_importStep64 _ _ _ h)

theorem mapContains_foldl_importStep_all {t : PlayerType} {filename : String}
    (L : List String) (m : List (String × PlayerRecord)) :
    ∀ x ∈ L, mapContains (L.foldl (importStep t filename) m) x = true := by
  induction L generalizing m with
  | nil => intro x hx; cases hx
  | cons y L ih =>
    intro x hx
    rcases List.mem_cons.mp hx with rfl | hx
    · exact mapContains_foldl_importStep L (mapContains_importStep_self _ _ _)
    · exact ih _ x hx

theorem mapContains_foldl_importStep64_all {t : PlayerType} {filename : String}
    (L : List String) (m : List (String × PlayerRecord)) :
    ∀ s ∈ L, ∀ id, steamid_64_to_32 s = .ok id →
      mapContains (L.foldl (importStep64 t filename) m) id = true := by
  induction L generalizing m with
  | nil => intro s hs; cases hs
  | cons y L ih =>
    intro s hs id hid
    rcases List.mem_cons.mp hs with rfl | hs
    · refine mapContains_foldl_importStep64 L ?_
      unfold importStep64
      rw [hid]
      exact mapContains_importStep_self _ _ _
    · exact ih _ s hs id hid

theorem foldl_importStep_fixed {t : PlayerType} {filename : String}
    (L : List String) {m : List (String × PlayerRecord)}
    (h : ∀ x ∈ L, mapContains m x = true) :
    L.foldl (importStep t filename) m = m := by
  induction L with
  | nil => rfl
  | cons y L ih =>
    have hy : importStep t filename m y = m := by
      unfold importStep
      rw [h y (List.mem_cons_self _ _)]
      simp
    simp only [List.foldl_cons, hy]
    exact ih (fun x hx => h x (List.mem_cons_of_mem _ hx))

theorem foldl_importStep64_fixed {t : PlayerType} {filename : String}
    (L : List String) {m : List (String × PlayerRecord)}
    (h : ∀ s ∈ L, ∀ id, steamid_64_to_32 s = .ok id → mapContains m id = true) :
    L.foldl (importStep64 t filename) m = m := by
  induction L with
  | nil => rfl
  | cons y L ih =>
    have hy : importStep64 t filename m y = m := by
      unfold importStep64
      cases hc : steamid_64_to_32 y with
      | error e => rfl
      | ok id =>
        show importStep t filename m id = m
        unfold importStep
        rw [h y (List.mem_cons_self _ _) id hc]
        simp
    simp only [List.foldl_cons, hy]
    exact ih (fun s hs id hid => h s (List.mem_cons_of_mem _ hs) id hid)

/-- The combined per-store import pass (32-bit scan results, then 64-bit
scan results) is idempotent on the target mapping. -/
theorem importFold_idem (t : PlayerType) (filename : String)
    (L32 L64 : List String) (pl : List (String × PlayerRecord)) :
    L64.foldl (importStep64 t filename)
        (L32.foldl (importStep t filename)
          (L64.foldl (importStep64 t filename) (L32.foldl (importStep t filename) pl))) =
      L64.foldl (importStep64 t filename) (L32.foldl (importStep t filename) pl) := by
  set m1 := L64.foldl (importStep64 t filename) (L32.foldl (importStep t filename) pl)
  have h32 : ∀ x ∈ L32, mapContains m1 x = true := by
    intro x hx
    exact mapContains_foldl_importStep64 L64 (mapContains_foldl_importStep_all L32 pl x hx)
  have h64 : ∀ s ∈ L64, ∀ id, steamid_64_to_32 s = .ok id → mapContains m1 id = true := by
    intro s hs id hid
    exact mapContains_foldl_importStep64_all L64 _ s hs id hid
  rw [foldl_importStep_fixed L32 h32, foldl_importStep64_fixed L64 h64]

/-- Claim C5: importing the same text twice into the same target store, as
the same kind, leaves the store exactly as a single import does. -/
theorem import_idempotent (pc : PlayerChecker) (contents : String)
    (t : PlayerType) (filename : String) (saved : Bool) :
    read_from_steamid_list_string
        (read_from_steamid_list_string pc contents t filename saved)
        contents t filename saved =
      read_from_steamid_list_string pc contents t filename saved := by
  cases saved with
  | true =>
    simp only [read_from_steamid_list_string, if_true]
    rw [importFold_idem]
  | false =>
    simp only [read_from_steamid_list_string, Bool.false_eq_true, if_false]
    rw [importFold_idem]

/-- Claim C6: importing `"[U:1:111] U:1:222 76561197960265730"` as Bot into
an empty internal store yields exactly the records `U:1:111`, `U:1:222` and
`U:1:2` (the SteamId32 equivalent of `76561197960265730`), each kind Bot
with the provenance note naming source and kind; a 64-bit substring whose
conversion fails (`76560000000000000` decodes below the Steam offset) is
silently skipped. -/
theorem import_scenario_a :
    read_from_steamid_list_string ⟨[], [], []⟩ "[U:1:111] U:1:222 76561197960265730"
        .Bot "list.txt" true =
      ⟨[],
        [("U:1:111", ⟨"U:1:111", .Bot, "Imported from list.txt as Bot"⟩),
          ("U:1:222", ⟨"U:1:222", .Bot, "Imported from list.txt as Bot"⟩),
          ("U:1:2", ⟨"U:1:2", .Bot, "Imported from list.txt as Bot"⟩)],
        []⟩ ∧
    steamid_64_to_32 "76561197960265730" = .ok "U:1:2" ∧
    read_from_steamid_list_string ⟨[], [], []⟩ "76560000000000000" .Bot "list.txt" true =
      ⟨[], [], []⟩ := by
  refine ⟨by decide, rfl, by decide⟩

/-! ## PartyDetector (`server/parties.rs`)

`Parties::update` copies the roster keys as graph nodes, adds one directed
edge per (player, friend-on-server) pair via `update_edge` (idempotent),
and `find_parties` folds the directed graph into an undirected one and
takes the connected components of size ≥ 2 (the source does this through
`petgraph::algo::condensation`, which for an undirected graph yields one
node per connected component; the library computation is embedded as a
direct partition-merge with the same observable result). Both `.unwrap()`
calls in `update` (the node lookup and the friend-id conversion) are
embedded as `Option`, `none` marking the panic. -/

deriving instance DecidableEq for Except

structure FriendEntry where
  steamid : String
deriving DecidableEq, Repr

/-- The slice of `steamapi::AccountInfo` that `Parties::update` reads. -/
structure AccountFriends where
  friends : Option (Except Unit (List FriendEntry))
deriving DecidableEq, Repr

structure ServerPlayer where
  steamid32 : String
  account_info : Option (Except Unit AccountFriends)
deriving DecidableEq, Repr

/-- `Graph::update_edge`: inserts the directed edge if it is not already
present. -/
def addEdge (edges : List (String × String)) (a b : String) : List (String × String) :=
  if (a, b) ∈ edges then edges else edges ++ [(a, b)]

/-- Edge contribution of one roster player: with friend data present, the
player's own node is looked up (`unwrap`: `none` if the id is not a node),
each friend id is converted (`unwrap`: `none` on conversion failure) and an
edge is added for every friend currently on the server. -/
def playerEdges (players : List String) (edges : List (String × String))
    (p : ServerPlayer) : Option (List (String × String)) :=
  match p.account_info with
  | some (.ok acif) =>
    match acif.friends with
    | some (.ok friends) =>
      if p.steamid32 ∈ players then
        friends.foldlM
          (fun es f =>
            match steamid_64_to_32 f.steamid with
            | .error _ => none
            | .ok id => some (if id ∈ players then addEdge es p.steamid32 id else es))
          edges
      else none
    | _ => some edges
  | _ => some edges

def collectEdges (players : List String) (ps : List ServerPlayer) :
    Option (List (String × String)) :=
  ps.foldlM (fun es p => playerEdges players es p) []

/-- Merging step of the connected-component computation: all classes
containing either endpoint collapse into one. -/
def insertEdgeMerge {α : Type} [DecidableEq α] (p : List (List α)) (a b : α) :
    List (List α) :=
  (p.filter fun c => decide (a ∈ c) || decide (b ∈ c)).flatten ::
    p.filter fun c => !(decide (a ∈ c) || decide (b ∈ c))

/-- Connected components of the undirected graph on `nodes` with edge list
`edges`: start from singletons and merge along every edge. -/
def components {α : Type} [DecidableEq α] (nodes : List α) (edges : List (α × α)) :
    List (List α) :=
  edges.foldl (fun p e => insertEdgeMerge p e.1 e.2) (nodes.map fun a => [a])

/-- `Parties::find_parties`: components of size ≥ 2 survive, singletons are
discarded; an empty roster short-circuits to no parties. -/
def find_parties (players : List String) (edges : List (String × String)) :
    List (List String) :=
  if players.isEmpty then []
  else (components players edges).filter fun c => 1 < c.length

structure PartiesState where
  players : List String
  parties : List (List String)
  edges : List (String × String)
deriving DecidableEq, Repr

/-- `Parties::update` over a roster map: nodes are the map keys, edges come
from each player's friend data, then parties are recomputed. -/
def partiesUpdate (player_map : List (String × ServerPlayer)) : Option PartiesState :=
  let players := player_map.map fun e => e.1
  match collectEdges players (player_map.map fun e => e.2) with
  | none => none
  | some edges => some ⟨players, find_parties players edges, edges⟩

/-- The one-step edge relation of an edge list. -/
def EdgeRel {α : Type} (E : List (α × α)) (x y : α) : Prop :=
  (x, y) ∈ E

/-- Connectivity in the undirected graph: the equivalence closure of the
edge relation (symmetry is added by the closure, matching the directed
graph being folded into an undirected one). -/
def Connected {α : Type} (E : List (α × α)) (x y : α) : Prop :=
  Relation.EqvGen (EdgeRel E) x y

def sameClass {α : Type} (p : List (List α)) (x y : α) : Prop :=
  ∃ c ∈ p, x ∈ c ∧ y ∈ c

/-! ## Connected components: correctness of the partition merge -/

theorem eqvGen_pair_iff {α : Type} (R : α → α → Prop) (a b x y : α) :
    Relation.EqvGen (fun u v => R u v ∨ (u = a ∧ v = b)) x y ↔
      Relation.EqvGen R x y ∨
        (Relation.EqvGen R x a ∧ Relation.EqvGen R b y) ∨
        (Relation.EqvGen R x b ∧ Relation.EqvGen R a y) := by
  constructor
  · intro h
    induction h with
    | rel u v huv =>
      rcases huv with huv | ⟨rfl, rfl⟩
      · exact Or.inl (Relation.EqvGen.rel _ _ huv)
      · exact Or.inr (Or.inl ⟨Relation.EqvGen.refl _, Relation.EqvGen.refl _⟩)
    | refl u => exact Or.inl (Relation.EqvGen.refl _)
    | symm u v huv ih =>
      rcases ih with h1 | ⟨h1, h2⟩ | ⟨h1, h2⟩
      · exact Or.inl (Relation.EqvGen.symm _ _ h1)
      · exact Or.inr (Or.inr ⟨Relation.EqvGen.symm _ _ h2, Relation.EqvGen.symm _ _ h1⟩)
      · exact Or.inr (Or.inl ⟨Relation.EqvGen.symm _ _ h2, Relation.EqvGen.symm _ _ h1⟩)
    | trans u v w huv hvw ih1 ih2 =>
      rcases ih1 with h1 | ⟨h1, h2⟩ | ⟨h1, h2⟩ <;>
        rcases ih2 with h3 | ⟨h3, h4⟩ | ⟨h3, h4⟩
      · exact Or.inl (Relation.EqvGen.trans _ _ _ h1 h3)
      · exact Or.inr (Or.inl ⟨Relation.EqvGen.trans _ _ _ h1 h3, h4⟩)
      · exact Or.inr (Or.inr ⟨Relation.EqvGen.trans _ _ _ h1 h3, h4⟩)
      · exact Or.inr (Or.inl ⟨h1, Relation.EqvGen.trans _ _ _ h2 h3⟩)
      · exact Or.inl (Relation.EqvGen.trans _ _ _
          (Relation.EqvGen.trans _ _ _ h1
            (Relation.EqvGen.symm _ _ (Relation.EqvGen.trans _ _ _ h2 h3))) h4)
      · exact Or.inl (Relation.EqvGen.trans _ _ _ h1 h4)
      · exact Or.inr (Or.inr ⟨h1, Relation.EqvGen.trans _ _ _ h2 h3⟩)
      · exact Or.inl (Relation.EqvGen.trans _ _ _ h1 h4)
      · exact Or.inl (Relation.EqvGen.trans _ _ _ h1
          (Relation.EqvGen.trans _ _ _ (Relation.EqvGen.symm _ _
            (Relation.EqvGen.trans _ _ _ h2 h3)) h4))
  · have mono : ∀ u v : α, Relation.EqvGen R u v →
        Relation.EqvGen (fun u v => R u v ∨ (u = a ∧ v = b)) u v :=
      fun u v h => Relation.EqvGen.mono (fun c d hcd => Or.inl hcd) h
    have hab : Relation.EqvGen (fun u v => R u v ∨ (u = a ∧ v = b)) a b :=
      Relation.EqvGen.rel _ _ (Or.inr ⟨rfl, rfl⟩)
    rintro (h | ⟨h1, h2⟩ | ⟨h1, h2⟩)
    · exact mono _ _ h
    · exact Relation.EqvGen.trans _ _ _ (Relation.EqvGen.trans _ _ _ (mono _ _ h1) hab)
        (mono _ _ h2)
    · exact Relation.EqvGen.trans _ _ _ (Relation.EqvGen.trans _ _ _ (mono _ _ h1)
        (Relation.EqvGen.symm _ _ hab)) (mono _ _ h2)

theorem eqvGen_congr {α : Type} {R S : α → α → Prop} (h : ∀ u v, R u v ↔ S u v)
    {x y : α} : Relation.EqvGen R x y ↔ Relation.EqvGen S x y :=
  ⟨Relation.EqvGen.mono (fun u v huv => (h u v).mp huv),
    Relation.EqvGen.mono (fun u v huv => (h u v).mpr huv)⟩

theorem connected_nil {α : Type} {x y : α} : Connected ([] : List (α × α)) x y ↔ x = y := by
  constructor
  · intro h
    induction h with
    | rel u v huv => cases huv
    | refl u => rfl
    | symm u v _ ih => exact ih.symm
    | trans u v w _ _ ih1 ih2 => exact ih1.trans ih2
  · rintro rfl
    exact Relation.EqvGen.refl _

theorem connected_append_pair {α : Type} (P : List (α × α)) (e : α × α) (x y : α) :
    Connected (P ++ [e]) x y ↔
      Connected P x y ∨ (Connected P x e.1 ∧ Connected P e.2 y) ∨
        (Connected P x e.2 ∧ Connected P e.1 y) := by
  unfold Connected
  rw [eqvGen_congr (S := fun u v => EdgeRel P u v ∨ (u = e.1 ∧ v = e.2))
    (fun u v => by simp [EdgeRel, Prod.ext_iff])]
  exact eqvGen_pair_iff (EdgeRel P) e.1 e.2 x y

/-- Partition of a node set: classes are nonempty, duplicate-free, pairwise
disjoint, and jointly cover exactly the nodes. -/
structure IsPartition {α : Type} (nodes : List α) (p : List (List α)) : Prop where
  mem_iff : ∀ x, (∃ c ∈ p, x ∈ c) ↔ x ∈ nodes
  nodup : ∀ c ∈ p, c.Nodup
  nonempty : ∀ c ∈ p, c ≠ []
  disj : p.Pairwise List.Disjoint

theorem disjoint_symmetric {α : Type} : Symmetric (α := List α) List.Disjoint :=
  fun _ _ h _x hx hy => h hy hx

theorem IsPartition.class_eq {α : Type} {nodes : List α} {p : List (List α)}
    (hp : IsPartition nodes p) {c₁ c₂ : List α} {x : α}
    (h1 : c₁ ∈ p) (h2 : c₂ ∈ p) (hx1 : x ∈ c₁) (hx2 : x ∈ c₂) : c₁ = c₂ := by
  by_contra hne
  exact List.Pairwise.forall disjoint_symmetric hp.disj h1 h2 hne hx1 hx2

theorem sameClass_symm {α : Type} {p : List (List α)} {x y : α}
    (h : sameClass p x y) : sameClass p y x := by
  obtain ⟨c, hc, hx, hy⟩ := h
  exact ⟨c, hc, hy, hx⟩

theorem sameClass_trans {α : Type} {nodes : List α} {p : List (List α)}
    (hp : IsPartition nodes p) {x y z : α}
    (h1 : sameClass p x y) (h2 : sameClass p y z) : sameClass p x z := by
  obtain ⟨c₁, hc₁, hx, hy⟩ := h1
  obtain ⟨c₂, hc₂, hy₂, hz⟩ := h2
  have := hp.class_eq hc₁ hc₂ hy hy₂
  subst this
  exact ⟨c₁, hc₁, hx, hz⟩

theorem sameClass_base {α : Type} (nodes : List α) (x y : α) :
    sameClass (nodes.map fun a => [a]) x y ↔ x ∈ nodes ∧ x = y := by
  constructor
  · rintro ⟨c, hc, hx, hy⟩
    obtain ⟨a, ha, rfl⟩ := List.mem_map.mp hc
    obtain rfl := List.mem_singleton.mp hx
    obtain rfl := List.mem_singleton.mp hy
    exact ⟨ha, rfl⟩
  · rintro ⟨hx, rfl⟩
    exact ⟨[x], List.mem_map_of_mem _ hx, List.mem_singleton_self _, List.mem_singleton_self _⟩

theorem isPartition_base {α : Type} (nodes : List α) (hn : nodes.Nodup) :
    IsPartition nodes (nodes.map fun a => [a]) := by
  refine ⟨?_, ?_, ?_, ?_⟩
  · intro x
    constructor
    · rintro ⟨c, hc, hx⟩
      obtain ⟨a, ha, rfl⟩ := List.mem_map.mp hc
      obtain rfl := List.mem_singleton.mp hx
      exact ha
    · intro hx
      exact ⟨[x], List.mem_map_of_mem _ hx, List.mem_singleton_self _⟩
  · intro c hc
    obtain ⟨a, ha, rfl⟩ := List.mem_map.mp hc
    exact List.nodup_singleton a
  · intro c hc
    obtain ⟨a, ha, rfl⟩ := List.mem_map.mp hc
    exact List.cons_ne_nil a []
  · rw [List.pairwise_map]
    refine hn.imp ?_
    intro a b hab _x hx hy
    obtain rfl := List.mem_singleton.mp hx
    exact hab (List.mem_singleton.mp hy)

theorem mem_hit_flatten {α : Type} [DecidableEq α] {p : List (List α)} (a b x : α) :
    (x ∈ (p.filter fun c => decide (a ∈ c) || decide (b ∈ c)).flatten) ↔
      sameClass p x a ∨ sameClass p x b := by
  rw [List.mem_flatten]
  constructor
  · rintro ⟨c, hc, hx⟩
    rw [List.mem_filter] at hc
    obtain ⟨hcp, hcond⟩ := hc
    rcases Bool.or_eq_true_iff.mp hcond with h | h
    · exact Or.inl ⟨c, hcp, hx, of_decide_eq_true h⟩
    · exact Or.inr ⟨c, hcp, hx, of_decide_eq_true h⟩
  · rintro (⟨c, hc, hx, ha⟩ | ⟨c, hc, hx, hb⟩)
    · exact ⟨c, List.mem_filter.mpr ⟨hc, by simp [ha]⟩, hx⟩
    · exact ⟨c, List.mem_filter.mpr ⟨hc, by simp [hb]⟩, hx⟩

theorem sameClass_insertEdgeMerge {α : Type} [DecidableEq α] {nodes : List α}
    {p : List (List α)} (hp : IsPartition nodes p) {a b : α} (x y : α) :
    sameClass (insertEdgeMerge p a b) x y ↔
      sameClass p x y ∨ (sameClass p x a ∧ sameClass p b y) ∨
        (sameClass p x b ∧ sameClass p a y) := by
  constructor
  · rintro ⟨c, hc, hx, hy⟩
    rcases List.mem_cons.mp hc with rfl | hc
    · rw [mem_hit_flatten] at hx hy
      rcases hx with hx | hx <;> rcases hy with hy | hy
      · exact Or.inl (sameClass_trans hp hx (sameClass_symm hy))
      · exact Or.inr (Or.inl ⟨hx, sameClass_symm hy⟩)
      · exact Or.inr (Or.inr ⟨hx, sameClass_symm hy⟩)
      · exact Or.inl (sameClass_trans hp hx (sameClass_symm hy))
    · exact Or.inl ⟨c, List.mem_of_mem_filter hc, hx, hy⟩
  · have hmem : ∀ z : α, sameClass p z a ∨ sameClass p z b →
        z ∈ (p.filter fun c => decide (a ∈ c) || decide (b ∈ c)).flatten :=
      fun z hz => (mem_hit_flatten a b z).mpr hz
    rintro (⟨c, hc, hx, hy⟩ | ⟨h1, h2⟩ | ⟨h1, h2⟩)
    · by_cases hcond : (decide (a ∈ c) || decide (b ∈ c)) = true
      · refine ⟨_, List.mem_cons_self _ _, ?_, ?_⟩
        · rcases Bool.or_eq_true_iff.mp hcond with h | h
          · exact hmem x (Or.inl ⟨c, hc, hx, of_decide_eq_true h⟩)
          · exact hmem x (Or.inr ⟨c, hc, hx, of_decide_eq_true h⟩)
        · rcases Bool.or_eq_true_iff.mp hcond with h | h
          · exact hmem y (Or.inl ⟨c, hc, hy, of_decide_eq_true h⟩)
          · exact hmem y (Or.inr ⟨c, hc, hy, of_decide_eq_true h⟩)
      · refine ⟨c, ?_, hx, hy⟩
        exact List.mem_cons_of_mem _ (List.mem_filter.mpr ⟨hc, by simp [hcond]⟩)
    · exact ⟨_, List.mem_cons_self _ _, hmem x (Or.inl h1), hmem y (Or.inr (sameClass_symm h2))⟩
    · exact ⟨_, List.mem_cons_self _ _, hmem x (Or.inr h1), hmem y (Or.inl (sameClass_symm h2))⟩

theorem isPartition_insertEdgeMerge {α : Type} [DecidableEq α] {nodes : List α}
    {p : List (List α)} (hp : IsPartition nodes p) {a b : α}
    (ha : a ∈ nodes) :
    IsPartition nodes (insertEdgeMerge p a b) := by
  have hhit : ∀ c, c ∈ (p.filter fun c => decide (a ∈ c) || decide (b ∈ c)) → c ∈ p :=
    fun c hc => List.mem_of_mem_filter hc
  refine ⟨?_, ?_, ?_, ?_⟩
  · intro x
    rw [← hp.mem_iff x]
    constructor
    · rintro ⟨c, hc, hx⟩
      rcases List.mem_cons.mp hc with rfl | hc
      · rcases (mem_hit_flatten a b x).mp hx with ⟨c, hc, hx, -⟩ | ⟨c, hc, hx, -⟩ <;>
          exact ⟨c, hc, hx⟩
      · exact ⟨c, List.mem_of_mem_filter hc, hx⟩
    · rintro ⟨c, hc, hx⟩
      by_cases hcond : (decide (a ∈ c) || decide (b ∈ c)) = true
      · refine ⟨_, List.mem_cons_self _ _, List.mem_flatten.mpr ⟨c, ?_, hx⟩⟩
        exact List.mem_filter.mpr ⟨hc, hcond⟩
      · exact ⟨c, List.mem_cons_of_mem _ (List.mem_filter.mpr ⟨hc, by simp [hcond]⟩), hx⟩
  · intro c hc
    rcases List.mem_cons.mp hc with rfl | hc
    · rw [List.nodup_flatten]
      refine ⟨fun l hl => hp.nodup l (hhit l hl), ?_⟩
      exact List.Pairwise.sublist (List.filter_sublist p) hp.disj
    · exact hp.nodup c (List.mem_of_mem_filter hc)
  · intro c hc
    rcases List.mem_cons.mp hc with rfl | hc
    · obtain ⟨ca, hca, haca⟩ := (hp.mem_iff a).mpr ha
      refine List.ne_nil_of_mem (List.mem_flatten.mpr ⟨ca, ?_, haca⟩)
      exact List.mem_filter.mpr ⟨hca, by simp [haca]⟩
    · exact hp.nonempty c (List.mem_of_mem_filter hc)
  · unfold insertEdgeMerge
    rw [List.pairwise_cons]
    refine ⟨?_, List.Pairwise.sublist (List.filter_sublist p) hp.disj⟩
    intro c hc x hxf hxc
    obtain ⟨d, hd, hxd⟩ := List.mem_flatten.mp hxf
    have hdp : d ∈ p := hhit d hd
    have hcp : c ∈ p := List.mem_of_mem_filter hc
    have hdc : d = c := hp.class_eq hdp hcp hxd hxc
    subst hdc
    rw [List.mem_filter] at hd hc
    rw [hd.2] at hc
    exact absurd hc.2 (by simp)

theorem foldl_insertEdgeMerge_spec {α : Type} [DecidableEq α] (nodes : List α) :
    ∀ (E P : List (α × α)) (p : List (List α)),
      IsPartition nodes p →
      (∀ x y, sameClass p x y ↔ x ∈ nodes ∧ Connected P x y) →
      (∀ e ∈ E, e.1 ∈ nodes ∧ e.2 ∈ nodes) →
      IsPartition nodes (E.foldl (fun p e => insertEdgeMerge p e.1 e.2) p) ∧
        (∀ x y, sameClass (E.foldl (fun p e => insertEdgeMerge p e.1 e.2) p) x y ↔
          x ∈ nodes ∧ Connected (P ++ E) x y) := by
  intro E
  induction E with
  | nil =>
    intro P p hp hsc _
    simpa using ⟨hp, hsc⟩
  | cons e E ih =>
    intro P p hp hsc hE
    have ha : e.1 ∈ nodes := (hE e (List.mem_cons_self _ _)).1
    have hb : e.2 ∈ nodes := (hE e (List.mem_cons_self _ _)).2
    have hp1 : IsPartition nodes (insertEdgeMerge p e.1 e.2) :=
      isPartition_insertEdgeMerge hp ha
    have hsc1 : ∀ x y, sameClass (insertEdgeMerge p e.1 e.2) x y ↔
        x ∈ nodes ∧ Connected (P ++ [e]) x y := by
      intro x y
      rw [sameClass_insertEdgeMerge hp, connected_append_pair,
        hsc x y, hsc x e.1, hsc e.2 y, hsc x e.2, hsc e.1 y]
      constructor
      · rintro (⟨hx, h⟩ | ⟨⟨hx, h1⟩, ⟨-, h2⟩⟩ | ⟨⟨hx, h1⟩, ⟨-, h2⟩⟩)
        · exact ⟨hx, Or.inl h⟩
        · exact ⟨hx, Or.inr (Or.inl ⟨h1, h2⟩)⟩
        · exact ⟨hx, Or.inr (Or.inr ⟨h1, h2⟩)⟩
      · rintro ⟨hx, h | ⟨h1, h2⟩ | ⟨h1, h2⟩⟩
        · exact Or.inl ⟨hx, h⟩
        · exact Or.inr (Or.inl ⟨⟨hx, h1⟩, ⟨hb, h2⟩⟩)
        · exact Or.inr (Or.inr ⟨⟨hx, h1⟩, ⟨ha, h2⟩⟩)
    have hrec := ih (P ++ [e]) (insertEdgeMerge p e.1 e.2) hp1 hsc1
      (fun f hf => hE f (List.mem_cons_of_mem _ hf))
    simpa [List.append_assoc] using hrec

theorem components_spec {α : Type} [DecidableEq α] (nodes : List α) (E : List (α × α))
    (hn : nodes.Nodup) (hE : ∀ e ∈ E, e.1 ∈ nodes ∧ e.2 ∈ nodes) :
    IsPartition nodes (components nodes E) ∧
      (∀ x y, sameClass (components nodes E) x y ↔ x ∈ nodes ∧ Connected E x y) := by
  have hbase : ∀ x y : α, sameClass (nodes.map fun a => [a]) x y ↔
      x ∈ nodes ∧ Connected ([] : List (α × α)) x y := by
    intro x y
    rw [sameClass_base, connected_nil]
  have hrec := foldl_insertEdgeMerge_spec nodes E [] (nodes.map fun a => [a])
    (isPartition_base nodes hn) hbase hE
  simpa [components] using hrec

/-! ## Edge endpoints produced by `Parties::update` -/

theorem mem_addEdge {es : List (String × String)} {a b : String} {e : String × String}
    (h : e ∈ addEdge es a b) : e ∈ es ∨ e = (a, b) := by
  unfold addEdge at h
  by_cases hm : (a, b) ∈ es
  · rw [if_pos hm] at h
    exact Or.inl h
  · rw [if_neg hm] at h
    rcases List.mem_append.mp h with h | h
    · exact Or.inl h
    · exact Or.inr (List.mem_singleton.mp h)

theorem friendFold_endpoints (players : List String) (sid : String) :
    ∀ (friends : List FriendEntry) (es es' : List (String × String)),
      friends.foldlM
        (fun es f =>
          match steamid_64_to_32 f.steamid with
          | .error _ => none
          | .ok id => some (if id ∈ players then addEdge es sid id else es)) es = some es' →
      sid ∈ players →
      ∀ e ∈ es', e ∈ es ∨ (e.1 ∈ players ∧ e.2 ∈ players) := by
  intro friends
  induction friends with
  | nil =>
    intro es es' h hs e he
    rw [List.foldlM_nil] at h
    obtain rfl := Option.some.inj h
    exact Or.inl he
  | cons f fs ih =>
    intro es es' h hs e he
    rw [List.foldlM_cons] at h
    cases hconv : steamid_64_to_32 f.steamid with
    | error err =>
      rw [hconv] at h
      simp at h
    | ok id =>
      rw [hconv] at h
      have h' : fs.foldlM
          (fun es f =>
            match steamid_64_to_32 f.steamid with
            | .error _ => none
            | .ok id => some (if id ∈ players then addEdge es sid id else es))
          (if id ∈ players then addEdge es sid id else es) = some es' := h
      rcases ih _ _ h' hs e he with hmem | hgood
      · by_cases hid : id ∈ players
        · rw [if_pos hid] at hmem
          rcases mem_addEdge hmem with hmem | rfl
          · exact Or.inl hmem
          · exact Or.inr ⟨hs, hid⟩
        · rw [if_neg hid] at hmem
          exact Or.inl hmem
      · exact Or.inr hgood

theorem playerEdges_endpoints {players : List String} {es es' : List (String × String)}
    {p : ServerPlayer} (h : playerEdges players es p = some es') :
    ∀ e ∈ es', e ∈ es ∨ (e.1 ∈ players ∧ e.2 ∈ players) := by
  obtain ⟨sid, ai⟩ := p
  cases ai with
  | none =>
    obtain rfl := Option.some.inj h
    exact fun e he => Or.inl he
  | some aiex =>
    cases aiex with
    | error err =>
      obtain rfl := Option.some.inj h
      exact fun e he => Or.inl he
    | ok acif =>
      obtain ⟨fr⟩ := acif
      cases fr with
      | none =>
        obtain rfl := Option.some.inj h
        exact fun e he => Or.inl he
      | some frex =>
        cases frex with
        | error err =>
          obtain rfl := Option.some.inj h
          exact fun e he => Or.inl he
        | ok friends =>
          have h' : (if sid ∈ players then
              friends.foldlM
                (fun es f =>
                  match steamid_64_to_32 f.steamid with
                  | .error _ => none
                  | .ok id => some (if id ∈ players then addEdge es sid id else es))
                es
            else none) = some es' := h
          by_cases hs : sid ∈ players
          · rw [if_pos hs] at h'
            exact friendFold_endpoints players sid friends es es' h' hs
          · rw [if_neg hs] at h'
            cases h'

theorem foldlM_playerEdges_endpoints (players : List String) :
    ∀ (ps : List ServerPlayer) (es es' : List (String × String)),
      ps.foldlM (fun es p => playerEdges players es p) es = some es' →
      (∀ e ∈ es, e.1 ∈ players ∧ e.2 ∈ players) →
      ∀ e ∈ es', e.1 ∈ players ∧ e.2 ∈ players := by
  intro ps
  induction ps with
  | nil =>
    intro es es' h hes
    rw [List.foldlM_nil] at h
    obtain rfl := Option.some.inj h
    exact hes
  | cons p ps ih =>
    intro es es' h hes
    rw [List.foldlM_cons] at h
    cases hpe : playerEdges players es p with
    | none =>
      rw [hpe] at h
      simp at h
    | some es1 =>
      rw [hpe] at h
      refine ih es1 es' h ?_
      intro e he
      rcases playerEdges_endpoints hpe e he with hmem | hgood
      · exact hes e hmem
      · exact hgood

theorem collectEdges_endpoints {players : List String} {ps : List ServerPlayer}
    {E : List (String × String)} (h : collectEdges players ps = some E) :
    ∀ e ∈ E, e.1 ∈ players ∧ e.2 ∈ players := by
  unfold collectEdges at h
  exact foldlM_playerEdges_endpoints players ps [] E h (fun e he => absurd he (List.not_mem_nil e))

/-- Claim C4: for every roster snapshot on which `Parties::update` completes,
the computed parties are the connected components of size ≥ 2 of the
undirected friendship graph: every party has at least two (distinct)
members drawn from the roster, members of one party are mutually connected
and a party absorbs every roster node connected to it, no identity lies in
two distinct parties, and every roster node is either in some party or
connected to nothing but itself (a discarded singleton component). -/
theorem parties_partition (player_map : List (String × ServerPlayer))
    (hn : (player_map.map fun e => e.1).Nodup) (st : PartiesState)
    (hupd : partiesUpdate player_map = some st) :
    (∀ c ∈ st.parties, 2 ≤ c.length ∧ c.Nodup) ∧
    (∀ c ∈ st.parties, ∀ x ∈ c, x ∈ st.players) ∧
    (∀ c ∈ st.parties, ∀ x ∈ c, ∀ y ∈ c, Connected st.edges x y) ∧
    (∀ c ∈ st.parties, ∀ x ∈ c, ∀ y ∈ st.players, Connected st.edges x y → y ∈ c) ∧
    (∀ c₁ ∈ st.parties, ∀ c₂ ∈ st.parties, ∀ x, x ∈ c₁ → x ∈ c₂ → c₁ = c₂) ∧
    (∀ x ∈ st.players, (∃ c ∈ st.parties, x ∈ c) ∨
      (∀ y ∈ st.players, Connected st.edges x y → y = x)) := by
  simp only [partiesUpdate] at hupd
  cases hE : collectEdges (player_map.map fun e => e.1) (player_map.map fun e => e.2) with
  | none =>
    rw [hE] at hupd
    cases hupd
  | some E =>
    rw [hE] at hupd
    obtain rfl := Option.some.inj hupd
    have hend := collectEdges_endpoints hE
    obtain ⟨hpart, hsc⟩ := components_spec (player_map.map fun e => e.1) E hn hend
    by_cases hempty : (player_map.map fun e => e.1).isEmpty = true
    · have hfp : find_parties (player_map.map fun e => e.1) E = [] := by
        rw [find_parties, if_pos hempty]
      have hplayers : (player_map.map fun e => e.1) = [] := List.isEmpty_iff.mp hempty
      refine ⟨?_, ?_, ?_, ?_, ?_, ?_⟩ <;>
        simp only [hfp, hplayers] <;> intro c hc <;> cases hc
    · have hfp : find_parties (player_map.map fun e => e.1) E =
          (components (player_map.map fun e => e.1) E).filter fun c => 1 < c.length := by
        rw [find_parties, if_neg hempty]
      have hpmem : ∀ {c : List String},
          c ∈ find_parties (player_map.map fun e => e.1) E →
            c ∈ components (player_map.map fun e => e.1) E ∧ 1 < c.length := by
        intro c hc
        rw [hfp, List.mem_filter] at hc
        exact ⟨hc.1, of_decide_eq_true hc.2⟩
      refine ⟨?_, ?_, ?_, ?_, ?_, ?_⟩
      · intro c hc
        obtain ⟨hcm, hlen⟩ := hpmem hc
        exact ⟨hlen, hpart.nodup c hcm⟩
      · intro c hc x hx
        obtain ⟨hcm, -⟩ := hpmem hc
        exact (hpart.mem_iff x).mp ⟨c, hcm, hx⟩
      · intro c hc x hx y hy
        obtain ⟨hcm, -⟩ := hpmem hc
        exact ((hsc x y).mp ⟨c, hcm, hx, hy⟩).2
      · intro c hc x hx y hy hconn
        obtain ⟨hcm, -⟩ := hpmem hc
        have hxP : x ∈ (player_map.map fun e => e.1) := (hpart.mem_iff x).mp ⟨c, hcm, hx⟩
        obtain ⟨c₂, hc₂, hx₂, hy₂⟩ := (hsc x y).mpr ⟨hxP, hconn⟩
        obtain rfl := hpart.class_eq hcm hc₂ hx hx₂
        exact hy₂
      · intro c₁ hc₁ c₂ hc₂ x hx₁ hx₂
        exact hpart.class_eq (hpmem hc₁).1 (hpmem hc₂).1 hx₁ hx₂
      · intro x hx
        obtain ⟨c, hc, hxc⟩ := (hpart.mem_iff x).mpr hx
        by_cases hlen : 1 < c.length
        · exact Or.inl ⟨c, by rw [hfp]; exact List.mem_filter.mpr ⟨hc, by simpa⟩, hxc⟩
        · refine Or.inr ?_
          have hne := hpart.nonempty c hc
          have hone : c.length = 1 := by
            have := List.length_pos.mpr hne
            omega
          obtain ⟨a, ha⟩ := List.length_eq_one.mp hone
          subst ha
          have hxa := List.mem_singleton.mp hxc
          subst hxa
          intro y hy hconn
          obtain ⟨c₂, hc₂, hx₂, hy₂⟩ := (hsc x y).mpr ⟨hx, hconn⟩
          obtain rfl := hpart.class_eq hc hc₂ (List.mem_singleton_self x) hx₂
          exact List.mem_singleton.mp hy₂

/-- Witness for C4 at a concrete three-player roster (scenario C): player
`U:1:1` lists `76561197960265730` (= `U:1:2`) as a friend, `U:1:2` has an
empty friends list, `U:1:3` has no enrichment data; the single party is
`{U:1:1, U:1:2}`. -/
theorem parties_partition_witness :
    2 ≤ (["U:1:1", "U:1:2"] : List String).length ∧
    (["U:1:1", "U:1:2"] : List String).Nodup :=
  (parties_partition
    [("U:1:1", ⟨"U:1:1", some (.ok ⟨some (.ok [⟨"76561197960265730"⟩])⟩)⟩),
      ("U:1:2", ⟨"U:1:2", some (.ok ⟨some (.ok [])⟩)⟩),
      ("U:1:3", ⟨"U:1:3", none⟩)]
    (by decide)
    (PartiesState.mk ["U:1:1", "U:1:2", "U:1:3"] [["U:1:1", "U:1:2"]]
      [("U:1:1", "U:1:2")])
    (by decide)).1 ["U:1:1", "U:1:2"] (by decide)

/-! ## Party indicators (`Parties::get_player_party_indicator`) -/

def COLOR_PALETTE : List (Nat × Nat × Nat) :=
  [(230, 25, 75), (60, 180, 75), (255, 225, 25), (0, 130, 200), (245, 130, 48),
    (145, 30, 180), (70, 240, 240), (240, 50, 230), (210, 245, 60), (250, 190, 212),
    (0, 128, 128), (220, 190, 255), (170, 110, 40), (255, 250, 200), (128, 0, 0),
    (170, 255, 195), (128, 128, 0), (255, 215, 180), (0, 0, 128), (128, 128, 128),
    (255, 255, 255)]

def INDICATOR_SYMBOLS : List Char := ['■', '★', '▲', '◆']

/-- `Parties::get_player_party_indicator`: position of the first party
containing the player, mapped to
`(INDICATOR_SYMBOLS[ind / palette.len], COLOR_PALETTE[ind % palette.len])`;
the symbol lookup panics for index ≥ 84 (embedded as `none`). -/
def get_player_party_indicator (parties : List (List String)) (steamid32 : String) :
    Option (Char × (Nat × Nat × Nat)) :=
  (parties.findIdx? fun party => decide (steamid32 ∈ party)).bind fun ind =>
    (INDICATOR_SYMBOLS.get? (ind / COLOR_PALETTE.length)).bind fun sym =>
      (COLOR_PALETTE.get? (ind % COLOR_PALETTE.length)).map fun col => (sym, col)

/-- Claim C7 (amended): the indicator is `none` exactly when the identity
belongs to no party (given fewer than 85 parties, below the index at which
the symbol lookup would panic); otherwise, with `i` the index of the first
party containing the identity, it returns the pair
`(INDICATOR_SYMBOLS[i / paletteSize], COLOR_PALETTE[i mod paletteSize])` —
the symbol is a function of the party index alone, not of whether the
querying "self" identity shares the party. -/
theorem party_indicator_contract (parties : List (List String)) (sid : String)
    (hlen : parties.length ≤ 84) :
    (get_player_party_indicator parties sid = none ↔ ∀ c ∈ parties, sid ∉ c) ∧
    (∀ i, (parties.findIdx? fun party => decide (sid ∈ party)) = some i →
      get_player_party_indicator parties sid =
        some (INDICATOR_SYMBOLS.getD (i / COLOR_PALETTE.length) ' ',
          COLOR_PALETTE.getD (i % COLOR_PALETTE.length) (0, 0, 0))) := by
  have hsome : ∀ i, (parties.findIdx? fun party => decide (sid ∈ party)) = some i →
      get_player_party_indicator parties sid =
        some (INDICATOR_SYMBOLS.getD (i / COLOR_PALETTE.length) ' ',
          COLOR_PALETTE.getD (i % COLOR_PALETTE.length) (0, 0, 0)) := by
    intro i hfind
    have hi : i < parties.length :=
      (List.findIdx?_eq_some_iff_findIdx_eq.mp hfind).1
    have h21 : COLOR_PALETTE.length = 21 := rfl
    have hdiv : i / COLOR_PALETTE.length < 4 := by
      rw [h21]
      omega
    have hmod : i % COLOR_PALETTE.length < 21 := by
      rw [h21]
      exact Nat.mod_lt _ (by omega)
    unfold get_player_party_indicator
    rw [hfind]
    simp only [Option.some_bind]
    generalize i / COLOR_PALETTE.length = j at hdiv ⊢
    generalize i % COLOR_PALETTE.length = k at hmod ⊢
    interval_cases j <;> interval_cases k <;> rfl
  refine ⟨⟨?_, ?_⟩, hsome⟩
  · intro hnone c hc hmem
    cases hfind : parties.findIdx? fun party => decide (sid ∈ party) with
    | none =>
      rw [List.findIdx?_eq_none_iff] at hfind
      exact absurd (of_decide_eq_false (hfind c hc)) (by simp [hmem])
    | some i =>
      rw [hsome i hfind] at hnone
      cases hnone
  · intro hall
    have hfind : (parties.findIdx? fun party => decide (sid ∈ party)) = none := by
      rw [List.findIdx?_eq_none_iff]
      intro c hc
      simpa using hall c hc
    simp [get_player_party_indicator, hfind]

/-- Counterexample to C7 as stated: no injective two-valued signal of
"self shares the party" can explain the symbol — two identities in
different parties (one shared with "self", one not) both receive `'■'`,
because the symbol depends only on `partyIndex / paletteSize`. -/
theorem indicator_symbol_ignores_self :
    ¬ ∃ sig : Bool → Char, sig true ≠ sig false ∧
      ∀ (parties : List (List String)) (self q : String) (sym : Char)
        (col : Nat × Nat × Nat),
        get_player_party_indicator parties q = some (sym, col) →
        sym = sig (decide (∃ c ∈ parties, q ∈ c ∧ self ∈ c)) := by
  rintro ⟨sig, hne, hall⟩
  have h1 := hall [["a", "b"], ["c", "d"]] "b" "a" '■' (230, 25, 75) (by decide)
  have h2 := hall [["a", "b"], ["c", "d"]] "b" "c" '■' (60, 180, 75) (by decide)
  rw [show decide (∃ c ∈ [["a", "b"], ["c", "d"]], "a" ∈ c ∧ "b" ∈ c) = true by decide] at h1
  rw [show decide (∃ c ∈ [["a", "b"], ["c", "d"]], "c" ∈ c ∧ "b" ∈ c) = false by decide] at h2
  exact hne (h1.symm.trans h2)

/-- Witness for C7 (amended), at a concrete party list. -/
theorem party_indicator_contract_witness :
    get_player_party_indicator [["a", "b"]] "z" = none ∧
    get_player_party_indicator [["a", "b"]] "a" = some ('■', (230, 25, 75)) :=
  ⟨(party_indicator_contract [["a", "b"]] "z" (by decide)).1.mpr (by decide),
    by
      rw [(party_indicator_contract [["a", "b"]] "a" (by decide)).2 0 (by decide)]
      decide⟩

/-! ## Pattern-file import (claim C9) -/

/-- The non-empty trimmed lines of a pattern file. -/
def trimmedLines (contents : String) : List String :=
  ((splitLines contents).map trimStr).filter fun t => decide (t ≠ "")

theorem regex_fold_spec (valid : String → Bool) (lines : List String) :
    ∀ acc : List String × Nat,
      lines.foldl
        (fun acc line =>
          let txt := trimStr line
          if txt = "" then acc
          else if valid txt then (acc.1 ++ [txt], acc.2) else (acc.1, acc.2 + 1))
        acc =
      (acc.1 ++ ((lines.map trimStr).filter fun t => decide (t ≠ "")).filter valid,
        acc.2 + (((lines.map trimStr).filter fun t => decide (t ≠ "")).filter
          fun t => !valid t).length) := by
  induction lines with
  | nil => intro acc; simp
  | cons line lines ih =>
    intro acc
    rw [List.foldl_cons]
    by_cases hempty : trimStr line = ""
    · simp only [hempty, List.map_cons, List.filter_cons]
      have : (decide (("" : String) ≠ "")) = false := by decide
      rw [ih]
      simp [hempty]
    · by_cases hvalid : valid (trimStr line) = true
      · simp only [List.map_cons, List.filter_cons]
        rw [ih]
        simp [hempty, hvalid, List.append_assoc]
      · simp only [List.map_cons, List.filter_cons]
        rw [ih]
        simp only [hempty, hvalid]
        simp [hempty, hvalid]
        omega

/-- Claim C9 (amended): every non-empty trimmed line is compiled (`valid`
abstracts the external regex compiler); failing lines are counted as
warnings and skipped while the rest still imports; compiled patterns are
appended in order with no duplicate filtering; the player stores are
untouched. A file with three valid lines and one invalid line yields one
warning and three (not two) new patterns. -/
theorem read_regex_list_contract (valid : String → Bool) (pc : PlayerChecker)
    (contents : String) :
    (read_regex_list valid pc contents).1.bots_regx =
      pc.bots_regx ++ (trimmedLines contents).filter valid ∧
    (read_regex_list valid pc contents).2 =
      ((trimmedLines contents).filter fun t => !valid t).length ∧
    (read_regex_list valid pc contents).1.players = pc.players ∧
    (read_regex_list valid pc contents).1.external_players = pc.external_players ∧
    ((read_regex_list (fun s => decide (s ≠ "(")) ⟨[], [], []⟩ "a\nb\nc\n(").2 = 1 ∧
      (read_regex_list (fun s => decide (s ≠ "(")) ⟨[], [], []⟩
        "a\nb\nc\n(").1.bots_regx.length = 3) := by
  unfold read_regex_list trimmedLines
  rw [regex_fold_spec]
  exact ⟨rfl, by simp, rfl, rfl, by decide, by decide⟩

/-- Counterexample to C9 as stated: with one invalid regular expression
among three valid lines, the import reports one warning but the store
gains three new patterns, not exactly two. -/
theorem regex_scenario_counterexample :
    (read_regex_list (fun s => decide (s ≠ "(")) ⟨[], [], []⟩ "a\nb\nc\n(").2 = 1 ∧
    (read_regex_list (fun s => decide (s ≠ "(")) ⟨[], [], []⟩
      "a\nb\nc\n(").1.bots_regx.length = 3 ∧
    ¬((read_regex_list (fun s => decide (s ≠ "(")) ⟨[], [], []⟩
      "a\nb\nc\n(").1.bots_regx.length = 2) := by
  refine ⟨by decide, by decide, by decide⟩

/-! ## EnrichmentDispatcher unit of work (`steamapi.rs`, claims C8, C10)

The body of the closure spawned per request in `create_api_thread` is
embedded as a pure function of the request identity and an oracle holding
the outcomes of the five external fetches. It returns the list of tuples
sent on the response channel together with a flag marking whether the unit
subsequently hits a panic (`Vec::remove(0)` on an empty summary or ban
list). -/

inductive NetErr
  | mk
deriving DecidableEq, Repr

structure SummaryM where
  communityvisibilitystate : Int
  avatarmedium : String
  steamid : String
deriving DecidableEq, Repr

structure ApiOracle where
  summaryRes : Except NetErr (List SummaryM)
  bansRes : Except NetErr (List Unit)
  friendsRes : Except NetErr (List FriendEntry)
  shRes : Except Unit (List Unit)
  imgRes : Option Unit
deriving Repr

structure AccountInfoM where
  summary : SummaryM
  bans : Unit
  friends : Option (Except NetErr (List FriendEntry))
  sourcebans : Option Unit
deriving DecidableEq, Repr

/-- One response tuple: `(Option<Result<AccountInfo, _>>, Option<Image>, String)`. -/
def ApiResponse : Type :=
  Option (Except NetErr AccountInfoM) × Option Unit × String

instance : DecidableEq ApiResponse := by
  unfold ApiResponse
  infer_instance

/-- The unit of work spawned per request: fetch summary (whole-request
failure on error; on an empty summary list the code sends a `(None, None,
id)` tuple and then panics in `remove(0)`), fetch bans (same structure),
then friends only for public visibility, third-party bans only with a
configured key (failure degraded to no data), and the avatar image.
Returns (emitted tuples, panicked?). -/
def apiUnit (sh_key : String) (oracle : ApiOracle) (steamid : String) :
    List ApiResponse × Bool :=
  match oracle.summaryRes with
  | .error e => ([(some (.error e), none, steamid)], false)
  | .ok [] => ([(none, none, steamid)], true)
  | .ok (summary :: _) =>
    match oracle.bansRes with
    | .error e => ([(some (.error e), none, steamid)], false)
    | .ok [] => ([(none, none, steamid)], true)
    | .ok (ban :: _) =>
      let friends := if summary.communityvisibilitystate = 3
        then some oracle.friendsRes else none
      let sourcebans := if sh_key ≠ "" then
          match oracle.shRes with
          | .ok b => b.head?
          | .error _ => none
        else none
      ([(some (.ok ⟨summary, ban, friends, sourcebans⟩), oracle.imgRes, steamid)], false)

/-- Claim C8: whatever the fetch outcomes, the unit emits exactly one
response tuple, and the identity it carries is the request's identity. -/
theorem api_unit_emits_once (sh_key : String) (oracle : ApiOracle) (steamid : String) :
    (apiUnit sh_key oracle steamid).1.length = 1 ∧
    ∀ t ∈ (apiUnit sh_key oracle steamid).1, t.2.2 = steamid := by
  unfold apiUnit
  rcases hs : oracle.summaryRes with e | ls
  · simp
  · cases ls with
    | nil => simp
    | cons summary rest =>
      rcases hb : oracle.bansRes with e | lb
      · simp
      · cases lb with
        | nil => simp
        | cons ban rest2 => simp

/-- Witness for C8 at a concrete failed-summary fetch. -/
theorem api_unit_emits_once_witness :
    (apiUnit "" ⟨.error .mk, .ok [], .ok [], .ok [], none⟩ "76561197960265730").1.length = 1 ∧
    ((some (.error .mk), none, "76561197960265730") : ApiResponse).2.2 = "76561197960265730" :=
  ⟨(api_unit_emits_once "" ⟨.error .mk, .ok [], .ok [], .ok [], none⟩ "76561197960265730").1,
    (api_unit_emits_once "" ⟨.error .mk, .ok [], .ok [], .ok [], none⟩ "76561197960265730").2
      (some (.error .mk), none, "76561197960265730") (by decide)⟩

/-- Claim C10 (code bug): the code does reach panic branches on the inputs
the spec declares non-fatal — a friend entry with a malformed SteamId64
makes `Parties::update` panic on `unwrap`, and an empty summary or ban
list makes the enrichment unit panic in `Vec::remove(0)` right after
sending its degraded response. -/
theorem core_panics_on_degraded_inputs :
    partiesUpdate [("U:1:1", ⟨"U:1:1", some (.ok ⟨some (.ok [⟨"notanumber"⟩])⟩)⟩)] = none ∧
    (apiUnit "" ⟨.ok [], .ok [], .ok [], .ok [], none⟩ "76561197960265730").2 = true ∧
    (apiUnit "" ⟨.ok [⟨3, "url", "sid"⟩], .ok [], .ok [], .ok [], none⟩
      "76561197960265730").2 = true := by
  refine ⟨by decide, rfl, rfl⟩

end BotKicker
